import Mathlib

/-!
A verification model of the smartify-Jobs bot (`main.py`).

The Python source is translated into executable Lean definitions:

* the two query parsers (`parse_jobs_args`, lines 30-45, and
  `parse_free_text_to_query`, lines 48-69), including a character-level
  model of the regular expressions they use — word-boundary search and
  substitution for `(au|australia)` and `india` under `re.I`, and the
  case-sensitive `loc=([A-Za-z\s]+)` pattern.  Word characters, whitespace
  and case folding are modelled at ASCII semantics (the Python `re` module
  defaults to Unicode classes; the two agree on ASCII text, which is the
  domain of interest here);
* the subscription callback state machine (`sub_callback`, lines 249-297);
* the per-user daily digest assembly (`push_daily_job`, lines 379-408) and
  the channel broadcast (`post_channel_summary`, lines 101-142);
* the free-text search handler with its one-shot country retry
  (`text_search`, lines 359-374).

External collaborator modules (`database.py`, `jobs_api.py`, `ai_tools.py`,
`utils.py`, `config.py`) are not part of the given sources; where their
behaviour matters they are modelled from the specification, as documented
on the corresponding definitions.  Provider/formatter outputs are passed
as opaque string arguments.
-/

/-! ## Character classes and case folding (ASCII model of Python `re` / `str`) -/

/-- ASCII model of `re.IGNORECASE` folding: text character `c` matches the
lowercase pattern letter `p` iff `c` is `p` itself or its uppercase form. -/
def ciMatch (c p : Char) : Bool :=
  decide (c.toNat = p.toNat ∨ c.toNat + 32 = p.toNat)

/-- ASCII model of the regex word class `\w` = `[A-Za-z0-9_]` (used for the
`\b` word boundaries in the country patterns). -/
def isWordChar (c : Char) : Bool :=
  decide ((65 ≤ c.toNat ∧ c.toNat ≤ 90) ∨ (97 ≤ c.toNat ∧ c.toNat ≤ 122) ∨
    (48 ≤ c.toNat ∧ c.toNat ≤ 57) ∨ c.toNat = 95)

/-- ASCII model of the regex class `\s` (also the character set stripped by
Python `str.strip()`): space and the control characters 9-13. -/
def isSpaceChar (c : Char) : Bool :=
  decide (c.toNat = 32 ∨ (9 ≤ c.toNat ∧ c.toNat ≤ 13))

/-- The punctuation class `[,\.;:]` of `main.py` line 50. -/
def isPunctChar (c : Char) : Bool :=
  decide (c = ',' ∨ c = '.' ∨ c = ';' ∨ c = ':')

/-- Python `str.strip()`: drop leading and trailing whitespace. -/
def pyStrip (cs : List Char) : List Char :=
  ((cs.dropWhile isSpaceChar).reverse.dropWhile isSpaceChar).reverse

/-- `str.strip()` on `String`. -/
def pyStripStr (s : String) : String := String.mk (pyStrip s.toList)

/-- Python `str.lower()` on one character (ASCII model). -/
def pyLowerChar (c : Char) : Char :=
  if 65 ≤ c.toNat ∧ c.toNat ≤ 90 then Char.ofNat (c.toNat + 32) else c

/-- Python `str.upper()` on one character (ASCII model). -/
def pyUpperChar (c : Char) : Char :=
  if 97 ≤ c.toNat ∧ c.toNat ≤ 122 then Char.ofNat (c.toNat - 32) else c

/-- Python `str.lower()` (ASCII model). -/
def pyLower (s : String) : String := String.mk (s.toList.map pyLowerChar)

/-- Python `str.upper()` (ASCII model). -/
def pyUpper (s : String) : String := String.mk (s.toList.map pyUpperChar)

/-- `re.sub(cls+, " ", ·)` for a character class `cls`: replace each maximal
run of class characters with a single space.  `inRun` records whether the
previous character belonged to the class. -/
def subRunsAux (cls : Char → Bool) : Bool → List Char → List Char
  | _, [] => []
  | inRun, c :: rest =>
    if cls c then
      if inRun then subRunsAux cls true rest else ' ' :: subRunsAux cls true rest
    else c :: subRunsAux cls false rest

/-- Lines 49-51 of `main.py`: strip the input, collapse `[,\.;:]+` runs to a
single space, collapse whitespace runs to a single space, strip again. -/
def normalizeText (text : String) : List Char :=
  pyStrip (subRunsAux isSpaceChar false (subRunsAux isPunctChar false (pyStrip text.toList)))

/-! ## Word-boundary regex scanners

`reSearchWordAux`/`reSubWordFuel` model `re.search`/`re.sub` for a pattern of
the form `\b(alternatives)\b` whose alternatives start and end with word
characters: a match can only begin at a position whose preceding character is
not a word character (`prevW = false`), and `tryAt` checks the alternatives
plus the trailing boundary at that position.  After a substitution the
scanner continues right after the removed text, whose last character was a
word character, hence `prevW := true` there.  The substitution function
carries explicit fuel (one unit per examined position) so that it is
structurally recursive; callers pass the length of the text, which is enough
fuel to scan it completely. -/

/-- Try to match a case-insensitive pattern prefix, returning the rest. -/
def walkCI : List Char → List Char → Option (List Char)
  | [], cs => some cs
  | _ :: _, [] => none
  | p :: ps, c :: cs => if ciMatch c p then walkCI ps cs else none

/-- A trailing `\b` holds after a word character iff the text ends here or
continues with a non-word character. -/
def boundaryR : List Char → Bool
  | [] => true
  | c :: _ => !(isWordChar c)

/-- The alternatives `(au|australia)` with their trailing `\b`, tried in the
source order of the pattern at line 56/58 of `main.py`: `au` first, then
`australia` (which can only match where the `au` prefix matched). -/
def tryAuAt (cs : List Char) : Option (List Char) :=
  match walkCI ['a', 'u'] cs with
  | none => none
  | some rest2 =>
    if boundaryR rest2 then some rest2
    else
      match walkCI ['s', 't', 'r', 'a', 'l', 'i', 'a'] rest2 with
      | none => none
      | some rest9 => if boundaryR rest9 then some rest9 else none

/-- The pattern `india` with its trailing `\b` (line 59/61 of `main.py`). -/
def tryIndiaAt (cs : List Char) : Option (List Char) :=
  match walkCI ['i', 'n', 'd', 'i', 'a'] cs with
  | none => none
  | some rest => if boundaryR rest then some rest else none

/-- `re.search` for a `\b...\b` pattern: some position with a leading
boundary matches. -/
def reSearchWordAux (tryAt : List Char → Option (List Char)) : Bool → List Char → Bool
  | _, [] => false
  | prevW, c :: rest =>
    (!prevW && (tryAt (c :: rest)).isSome) || reSearchWordAux tryAt (isWordChar c) rest

/-- `re.sub(pattern, "", ·)` for a `\b...\b` pattern, with explicit fuel. -/
def reSubWordFuel (tryAt : List Char → Option (List Char)) : Nat → Bool → List Char → List Char
  | 0, _, cs => cs
  | _ + 1, _, [] => []
  | fuel + 1, true, c :: rest => c :: reSubWordFuel tryAt fuel (isWordChar c) rest
  | fuel + 1, false, c :: rest =>
    match tryAt (c :: rest) with
    | some rest2 => reSubWordFuel tryAt fuel true rest2
    | none => c :: reSubWordFuel tryAt fuel (isWordChar c) rest

/-- `re.search(r"\b(au|australia)\b", ·, re.I)` (line 56). -/
def containsAu (cs : List Char) : Bool := reSearchWordAux tryAuAt false cs

/-- `re.sub(r"\b(au|australia)\b", "", ·, re.I)` (line 58). -/
def removeAu (cs : List Char) : List Char := reSubWordFuel tryAuAt cs.length false cs

/-- `re.search(r"\bindia\b", ·, re.I)` (line 59). -/
def containsIndia (cs : List Char) : Bool := reSearchWordAux tryIndiaAt false cs

/-- `re.sub(r"\bindia\b", "", ·, re.I)` (line 61). -/
def removeIndia (cs : List Char) : List Char := reSubWordFuel tryIndiaAt cs.length false cs

/-! ## The `loc=([A-Za-z\s]+)` pattern (case-sensitive, no boundaries) -/

/-- The capture class `[A-Za-z\s]`. -/
def isLocChar (c : Char) : Bool :=
  decide ((65 ≤ c.toNat ∧ c.toNat ≤ 90) ∨ (97 ≤ c.toNat ∧ c.toNat ≤ 122)) || isSpaceChar c

/-- Try `loc=([A-Za-z\s]+)` at this position: on success return the greedy
capture and the rest of the text after the whole match. -/
def tryLocAt : List Char → Option (List Char × List Char)
  | 'l' :: 'o' :: 'c' :: '=' :: rest =>
    let cap := rest.takeWhile isLocChar
    if cap.isEmpty then none else some (cap, rest.dropWhile isLocChar)
  | _ => none

/-- `re.search(r"loc=([A-Za-z\s]+)", ·)` (line 63): the first match's capture. -/
def locFind : List Char → Option (List Char)
  | [] => none
  | c :: rest =>
    match tryLocAt (c :: rest) with
    | some (cap, _) => some cap
    | none => locFind rest

/-- `re.sub(r"loc=[A-Za-z\s]+", "", ·)` (line 66), with explicit fuel. -/
def locSubFuel : Nat → List Char → List Char
  | 0, cs => cs
  | _ + 1, [] => []
  | fuel + 1, c :: rest =>
    match tryLocAt (c :: rest) with
    | some (_, rest2) => locSubFuel fuel rest2
    | none => c :: locSubFuel fuel rest

/-- `re.sub(r"loc=[A-Za-z\s]+", "", ·)` (line 66). -/
def locSub (cs : List Char) : List Char := locSubFuel cs.length cs

/-! ## The parsed query and the free-text parser -/

/-- The normalized query produced by both parsers. -/
structure Query where
  keyword : String
  country : String
  location : Option String
deriving DecidableEq, Repr

/-- The intermediate stages of `parse_free_text_to_query` (lines 48-69):
the normalized text, the text after the AU branch, the text after the India
branch, the detected country, the extracted location, and the remaining text
that becomes the keyword (before the empty-default at line 68). -/
structure FreeTextTrace where
  norm : List Char
  afterAu : List Char
  afterIndia : List Char
  country : String
  location : Option String
  remainder : List Char
deriving DecidableEq, Repr

/-- Lines 48-66 of `main.py`.  `country` starts as `"AU"` (line 53); the AU
branch (lines 56-58) re-assigns `"AU"` and removes the matched words; the
India branch (lines 59-61) — an independent `if`, not an `elif` — assigns
`"IN"` and removes its words; so the final country is `"IN"` exactly when
the India pattern matches the AU-processed text.  The location branch
(lines 63-66) strips the first capture, removes every match of the location
pattern and then strips the remaining text; when there is no match the text
is left as is. -/
def freeTextTrace (text : String) : FreeTextTrace :=
  let t0 := normalizeText text
  let t1 := if containsAu t0 then removeAu t0 else t0
  let country := if containsIndia t1 then "IN" else "AU"
  let t2 := if containsIndia t1 then removeIndia t1 else t1
  ⟨t0, t1, t2, country,
   (locFind t2).map (fun cap => String.mk (pyStrip cap)),
   if (locFind t2).isSome then pyStrip (locSub t2) else t2⟩

/-- `parse_free_text_to_query` (lines 48-69): the keyword is the remaining
text, defaulting to `"software engineer"` when it is the empty string. -/
def parse_free_text_to_query (text : String) : Query :=
  let tr := freeTextTrace text
  ⟨if tr.remainder.isEmpty then "software engineer" else String.mk tr.remainder,
   tr.country, tr.location⟩

/-! ## The command-argument parser -/

/-- Python `al.startswith("loc=")`. -/
def strHasLocPre (s : String) : Bool :=
  match s.toList with
  | 'l' :: 'o' :: 'c' :: '=' :: _ => true
  | _ => false

/-- Python `a.split("=", 1)[1]`: everything after the first `=`.  In
`parse_jobs_args` this is only reached when the token starts (case
insensitively) with `loc=`, so an `=` is always present. -/
def afterFirstEq (a : String) : String :=
  String.mk ((a.toList.dropWhile (fun c => c != '=')).drop 1)

/-- The token loop of `parse_jobs_args` (lines 35-42), processing tokens in
order with the running country, location and keyword-token buffer. -/
def parseJobsArgsAux (country : String) (location : Option String) (tokens : List String) :
    List String → String × Option String × List String
  | [] => (country, location, tokens)
  | a :: rest =>
    let al := pyLower a
    if al = "au" ∨ al = "in" then parseJobsArgsAux (pyUpper al) location tokens rest
    else if strHasLocPre al then parseJobsArgsAux country (some (afterFirstEq a)) tokens rest
    else parseJobsArgsAux country location (tokens ++ [a]) rest

/-- `parse_jobs_args` (lines 30-45): the keyword is the buffered tokens
joined by single spaces and stripped, defaulting to `"software engineer"`
when that is empty. -/
def parse_jobs_args (args : List String) : Query :=
  let st := parseJobsArgsAux "AU" none [] args
  let kw := pyStripStr (String.intercalate " " st.2.2)
  ⟨if kw = "" then "software engineer" else kw, st.1, st.2.1⟩

/-- The keyword-token buffer `parse_jobs_args` accumulates for `args`. -/
def keptTokens (args : List String) : List String :=
  (parseJobsArgsAux "AU" none [] args).2.2

/-- The keyword as claim C6 words it: the kept tokens joined in order with
single spaces, defaulting to `"software engineer"` only when none remain
(no stripping).  Stated from the claim, for comparison with the source's
`parse_jobs_args`. -/
def c6ClaimKeyword (args : List String) : String :=
  if (keptTokens args).isEmpty then "software engineer"
  else String.intercalate " " (keptTokens args)

/-- The keyword as claim C5 words it: the remaining text trimmed at both
ends, defaulting to `"software engineer"` when that trimmed remainder is
empty.  Stated from the claim, for comparison with the source parser. -/
def c5ClaimKeyword (text : String) : String :=
  let r := pyStrip (freeTextTrace text).remainder
  if r.isEmpty then "software engineer" else String.mk r

/-! ## Preferences, the store, and the subscription callback

`database.py` is not among the given sources.  Modelled from the spec:
the Preference Store exposes `get(user_id)` (returning a default-all-false
record when absent, never failing) and `upsert(user_id, prefs)` which
persists the given flags (spec section 6); during a toggle session the
record handed out by `get_user` is the ambient, mutable working snapshot
shared between successive callbacks (spec sections 4.2 and 9).  The state
`Db` therefore keeps, per user id, the in-memory working record `mem`
(what `get_user` returns, and what in-place dict mutation updates) and the
persisted record `saved` (what `upsert_user` writes). -/

/-- The three notification preference flags. -/
structure Prefs where
  jobs_au : Bool
  jobs_in : Bool
  ai_tools : Bool
deriving DecidableEq, Repr

/-- The keys of the toggle buttons (`sub:toggle:<key>` callback data). -/
inductive ToggleKey
  | jobs_au
  | jobs_in
  | ai_tools
deriving DecidableEq, Repr

/-- `prefs[key] = not prefs.get(key, False)` (line 293) for the three keys. -/
def togglePref (p : Prefs) (k : ToggleKey) : Prefs :=
  match k with
  | .jobs_au => { p with jobs_au := !p.jobs_au }
  | .jobs_in => { p with jobs_in := !p.jobs_in }
  | .ai_tools => { p with ai_tools := !p.ai_tools }

/-- The preference store state: in-memory working records and persisted
records, per user id.  Modelled from the spec (see the section comment). -/
structure Db where
  mem : Nat → Prefs
  saved : Nat → Prefs

/-- `get_user` (modelled from the spec): returns the user's working record. -/
def get_user (db : Db) (uid : Nat) : Prefs := db.mem uid

/-- `upsert_user(uid, prefs=p)` (modelled from the spec): persists `p` as the
user's stored flags, which also refreshes the working record. -/
def upsert_user (db : Db) (uid : Nat) (p : Prefs) : Db :=
  ⟨fun u => if u = uid then p else db.mem u,
   fun u => if u = uid then p else db.saved u⟩

/-- The callback data handled by `sub_callback` (dispatcher pattern
`^(ui:open_subscribe|sub:.*)$`), with the toggle key restricted to the three
preference keys rendered by the keyboard. -/
inductive CallbackData
  | open_subscribe
  | nop
  | clear
  | done
  | toggle (key : ToggleKey)
deriving DecidableEq, Repr

/-- `sub_callback` (lines 249-297), as a state transformer on the store:

* `ui:open_subscribe` (lines 253-262) loads the prefs and re-renders the
  keyboard — no state change;
* `sub:nop` (lines 270-271) does nothing;
* `sub:clear` (lines 273-280) persists the all-false record;
* `sub:done` (lines 282-289) persists the prefs loaded by `get_user`, i.e.
  the current working record;
* `sub:toggle:<key>` (lines 291-297) flips the key in the dict returned by
  `get_user` — an in-place mutation of the working record, with no
  `upsert_user` call — and re-renders the keyboard. -/
def sub_callback (db : Db) (uid : Nat) (data : CallbackData) : Db :=
  match data with
  | .open_subscribe => db
  | .nop => db
  | .clear => upsert_user db uid ⟨false, false, false⟩
  | .done => upsert_user db uid (get_user db uid)
  | .toggle k => { db with mem := fun u => if u = uid then togglePref (db.mem uid) k else db.mem u }

/-! ## Digest assembly, channel broadcast, daily push

Provider and formatter outputs (`format_jobs(get_jobs(...))`,
`format_tools(get_ai_tools())`) are opaque strings passed as arguments;
`jobs_api.py` / `ai_tools.py` / `utils.py` are not among the given sources
and, per spec section 7(b), their failures are caught at the call site and
yield empty results, so the fetches are modelled as total. -/

/-- The AU jobs section of a message (lines 110, 391). -/
def sectionAU (c : String) : String := "🔥 <b>AU Jobs</b>:\n\n" ++ c

/-- The India jobs section of a message (lines 114, 393). -/
def sectionIN (c : String) : String := "🔥 <b>India Jobs</b>:\n\n" ++ c

/-- The AI tools section of a message (lines 118, 395). -/
def sectionTools (c : String) : String := "🤖 <b>AI Tools</b>:\n\n" ++ c

/-- The fixed section separator (lines 124, 401). -/
def digestSep : String := "\n\n—\n\n"

/-- `any(p.values())` for the three flags (line 386). -/
def anyFlag (p : Prefs) : Bool := p.jobs_au || p.jobs_in || p.ai_tools

/-- The per-user section list of `push_daily_job` (lines 389-395): each of
the three sections is appended exactly when its flag is set, in the fixed
order AU jobs, India jobs, AI tools; the fetched content is appended after
the section header without any emptiness check. -/
def digestParts (p : Prefs) (auC inC toolsC : String) : List String :=
  (if p.jobs_au then [sectionAU auC] else []) ++
  (if p.jobs_in then [sectionIN inC] else []) ++
  (if p.ai_tools then [sectionTools toolsC] else [])

/-- The per-user section list as claim C1 words it: a section is included
only when its flag is true AND its formatted content is non-empty.  Stated
from the claim, for comparison with the source's `digestParts`. -/
def c1ClaimParts (p : Prefs) (auC inC toolsC : String) : List String :=
  (if p.jobs_au ∧ auC ≠ "" then [sectionAU auC] else []) ++
  (if p.jobs_in ∧ inC ≠ "" then [sectionIN inC] else []) ++
  (if p.ai_tools ∧ toolsC ≠ "" then [sectionTools toolsC] else [])

/-- The message `push_daily_job` sends to one user, `none` when no send is
attempted: users with no flag set are skipped (lines 386-387), and a send
happens only when the section list is non-empty (lines 397-404). -/
def userDigestMessage (p : Prefs) (auC inC toolsC : String) : Option String :=
  if anyFlag p then
    let parts := digestParts p auC inC toolsC
    if parts.isEmpty then none else some (String.intercalate digestSep parts)
  else none

/-- The section list of `post_channel_summary` (lines 106-118): a section is
included exactly when its fetched content is non-blank (`if au.strip():` —
truthiness of the stripped string), and then the unstripped content is
appended after the header. -/
def channelParts (auC inC toolsC : String) : List String :=
  (if pyStrip auC.toList = [] then [] else [sectionAU auC]) ++
  (if pyStrip inC.toList = [] then [] else [sectionIN inC]) ++
  (if pyStrip toolsC.toList = [] then [] else [sectionTools toolsC])

/-- `post_channel_summary` (lines 101-142), as the message whose delivery is
attempted (`none` = no attempt): skipped when `CHANNEL_ID` is unset or empty
(Python falsiness, line 102), and when every section is blank (line 120);
a send failure is caught at line 141 and changes nothing observable here. -/
def post_channel_summary (channelId : Option String) (auC inC toolsC : String) : Option String :=
  if channelId.getD "" = "" then none
  else
    let parts := channelParts auC inC toolsC
    if parts.isEmpty then none else some (String.intercalate digestSep parts)

/-- The observable outcome of one daily-push run: the per-user delivery
attempts in processing order, each with its success flag, and the channel
message whose delivery was attempted afterwards. -/
structure RunResult where
  attempts : List (Nat × Bool)
  channelPost : Option String
deriving Repr

/-- The user loop of `push_daily_job` (lines 383-406): per user, skip when no
flag is set, otherwise build the sections (fetched contents may depend on
the iteration, hence the `Nat → String` arguments) and attempt one send; the
`try/except` at lines 398-406 catches a failed send (recorded through
`sendOk`) and the loop continues either way. -/
def pushAttempts (auC inC toolsC : Nat → String) (sendOk : Nat → Bool) :
    List (Nat × Prefs) → List (Nat × Bool)
  | [] => []
  | (uid, p) :: rest =>
    match userDigestMessage p (auC uid) (inC uid) (toolsC uid) with
    | none => pushAttempts auC inC toolsC sendOk rest
    | some _ => (uid, sendOk uid) :: pushAttempts auC inC toolsC sendOk rest

/-- `push_daily_job` (lines 379-408): the per-user loop followed by the
channel broadcast (line 408), which fetches its own contents. -/
def push_daily_job (users : List (Nat × Prefs)) (auC inC toolsC : Nat → String)
    (sendOk : Nat → Bool) (channelId : Option String) (chAu chIn chTools : String) : RunResult :=
  ⟨pushAttempts auC inC toolsC sendOk users, post_channel_summary channelId chAu chIn chTools⟩

/-! ## Free-text search with country retry -/

/-- The reply of `text_search`: the parsed keyword and location, the country
finally reported, the results used, and the reply header. -/
structure TextSearchReply where
  keyword : String
  country : String
  location : Option String
  results : List String
  header : String
deriving DecidableEq, Repr

/-- `"IN" if cc == "AU" else "AU"` (line 364). -/
def otherCountry (cc : String) : String := if cc = "AU" then "IN" else "AU"

/-- The reply header (line 368).  The location suffix is appended only when
`loc` is truthy in Python's sense: a present, non-empty string (an
empty-string location — e.g. from a capture that strips to nothing — is
falsy and appends no suffix). -/
def searchHeader (kw cc : String) (loc : Option String) : String :=
  "🔎 <b>Jobs for “" ++ kw ++ "” — " ++ cc ++ "</b>" ++
    (match loc with
     | some l => if l = "" then "" else " — " ++ l
     | none => "")

/-- `text_search` (lines 359-374): parse the message, fetch for the parsed
country; when the result list is empty, retry once with the other country
and adopt its results and country only when the retry is non-empty. -/
def text_search (jobsApi : String → String → Option String → List String)
    (msg : String) : TextSearchReply :=
  let q := parse_free_text_to_query msg
  let results := jobsApi q.keyword q.country q.location
  let st :=
    if results.isEmpty then
      let r2 := jobsApi q.keyword (otherCountry q.country) q.location
      if r2.isEmpty then (q.country, results) else (otherCountry q.country, r2)
    else (q.country, results)
  ⟨q.keyword, st.1, q.location, st.2, searchHeader q.keyword st.1 q.location⟩

/-! ## Shared helper lemmas -/

/-- `String.intercalate` of a one-element list is that element. -/
theorem String_intercalate_singleton (s a : String) : String.intercalate s [a] = a := rfl

/-- The uids `push_daily_job` attempts to deliver to are exactly the users
with a non-skipped digest, in order, regardless of which sends fail. -/
theorem pushAttempts_uids (auC inC toolsC : Nat → String) (sendOk : Nat → Bool)
    (users : List (Nat × Prefs)) :
    (pushAttempts auC inC toolsC sendOk users).map Prod.fst
      = (users.filter fun u =>
          (userDigestMessage u.2 (auC u.1) (inC u.1) (toolsC u.1)).isSome).map Prod.fst := by
  induction users with
  | nil => rfl
  | cons u rest ih =>
    obtain ⟨uid, p⟩ := u
    cases h : userDigestMessage p (auC uid) (inC uid) (toolsC uid) <;>
      simp [pushAttempts, h, ih, List.filter_cons]

/-- The country accumulator of the token loop stays in `{AU, IN}`. -/
theorem parseJobsArgsAux_country (args : List String) (country : String)
    (location : Option String) (tokens : List String)
    (h : country = "AU" ∨ country = "IN") :
    (parseJobsArgsAux country location tokens args).1 = "AU" ∨
    (parseJobsArgsAux country location tokens args).1 = "IN" := by
  induction args generalizing country location tokens with
  | nil => simpa [parseJobsArgsAux] using h
  | cons a rest ih =>
    simp only [parseJobsArgsAux]
    split
    · next hcase =>
      apply ih
      rcases hcase with hc | hc <;> rw [hc]
      · exact Or.inl (by decide)
      · exact Or.inr (by decide)
    · split
      · exact ih _ _ _ h
      · exact ih _ _ _ h

/-! ## Claim theorems -/

/-- C1, counterexample to the claim as stated: with only `jobs_au` enabled
and an empty formatted AU content, `push_daily_job` still includes the AU
section (header plus empty content) and attempts a delivery, while the
claimed assembly (only sections with non-empty content) has no section at
all. -/
theorem c1_counterexample :
    digestParts ⟨true, false, false⟩ "" "" "" ≠ c1ClaimParts ⟨true, false, false⟩ "" "" "" ∧
    c1ClaimParts ⟨true, false, false⟩ "" "" "" = [] ∧
    userDigestMessage ⟨true, false, false⟩ "" "" "" = some (sectionAU "") := by
  refine ⟨?_, ?_, ?_⟩ <;> decide

/-- C1, amended: in the daily digest, a user with no flag set gets no
delivery attempt; otherwise the message is the fixed-separator join of the
sections of the enabled flags, in the fixed order AU jobs, India jobs, AI
tools, regardless of whether the fetched contents are empty (the section
list is then never empty); in particular a user with `jobs_au` and
`ai_tools` enabled gets exactly the two sections AU jobs then AI tools. -/
theorem c1_amended (p : Prefs) (auC inC toolsC : String) :
    (anyFlag p = false → userDigestMessage p auC inC toolsC = none) ∧
    (anyFlag p = true →
      userDigestMessage p auC inC toolsC
        = some (String.intercalate digestSep (digestParts p auC inC toolsC)) ∧
      digestParts p auC inC toolsC ≠ []) ∧
    digestParts ⟨true, false, true⟩ auC inC toolsC = [sectionAU auC, sectionTools toolsC] := by
  obtain ⟨a, i, t⟩ := p
  cases a <;> cases i <;> cases t <;>
    simp [userDigestMessage, digestParts, anyFlag]

/-- Witness for C1 (amended) at a user with AU jobs and AI tools enabled. -/
theorem c1_witness :
    anyFlag ⟨true, false, true⟩ = true ∧
    userDigestMessage ⟨true, false, true⟩ "A" "" "C"
      = some (String.intercalate digestSep (digestParts ⟨true, false, true⟩ "A" "" "C")) :=
  ⟨by decide, ((c1_amended ⟨true, false, true⟩ "A" "" "C").2.1 (by decide)).1⟩

/-- C2: from a consistent state whose stored and working record for `uid`
is `p`, `toggle(k)` flips `k` in the working snapshot without persisting
anything, and a subsequent `done` persists exactly the working snapshot, so
open, toggle(k), done leaves the persisted record equal to `p` with `k`
flipped. -/
theorem c2_toggle_then_done_persists_flip (db : Db) (uid : Nat) (k : ToggleKey) (p : Prefs)
    (hmem : db.mem uid = p) (hsaved : db.saved uid = p) :
    (sub_callback (sub_callback (sub_callback db uid .open_subscribe) uid (.toggle k))
        uid .done).saved uid = togglePref p k ∧
    (sub_callback (sub_callback db uid .open_subscribe) uid (.toggle k)).saved uid = p := by
  simp [sub_callback, upsert_user, get_user, hmem, hsaved]

/-- Witness for C2 at a concrete store, user and key. -/
theorem c2_witness :
    (sub_callback (sub_callback (sub_callback
        ⟨fun _ => ⟨false, false, false⟩, fun _ => ⟨false, false, false⟩⟩
        1 .open_subscribe) 1 (.toggle .jobs_au)) 1 .done).saved 1
      = togglePref ⟨false, false, false⟩ .jobs_au :=
  (c2_toggle_then_done_persists_flip
    ⟨fun _ => ⟨false, false, false⟩, fun _ => ⟨false, false, false⟩⟩
    1 .jobs_au ⟨false, false, false⟩ rfl rfl).1

/-- C3: during one daily-push run, the set and order of users for whom a
delivery is attempted is determined by the stored flags alone — it is the
same for every pattern of delivery failures — and the channel broadcast is
reached afterwards whatever those failures were, because the send call
sits inside a per-user try/except and the fetches are total. -/
theorem c3_failures_do_not_abort (users : List (Nat × Prefs)) (auC inC toolsC : Nat → String)
    (sendOk sendOk' : Nat → Bool) (channelId : Option String) (chAu chIn chTools : String) :
    ((push_daily_job users auC inC toolsC sendOk channelId chAu chIn chTools).attempts.map Prod.fst
      = (users.filter fun u =>
          (userDigestMessage u.2 (auC u.1) (inC u.1) (toolsC u.1)).isSome).map Prod.fst) ∧
    ((push_daily_job users auC inC toolsC sendOk channelId chAu chIn chTools).attempts.map Prod.fst
      = (push_daily_job users auC inC toolsC sendOk' channelId chAu chIn chTools).attempts.map
          Prod.fst) ∧
    ((push_daily_job users auC inC toolsC sendOk channelId chAu chIn chTools).channelPost
      = post_channel_summary channelId chAu chIn chTools) := by
  refine ⟨?_, ?_, rfl⟩
  · simpa [push_daily_job] using pushAttempts_uids auC inC toolsC sendOk users
  · simp [push_daily_job, pushAttempts_uids]

/-- C6, counterexample to the claim as stated: on the token list `[" "]`
the kept-token buffer is non-empty, so the claimed keyword is the joined
buffer `" "`, but the source strips the join and falls back to the default
keyword. -/
theorem c6_counterexample :
    (parse_jobs_args [" "]).keyword ≠ c6ClaimKeyword [" "] ∧
    keptTokens [" "] ≠ [] := by
  refine ⟨?_, ?_⟩ <;> decide

/-- C6, amended: command-argument parsing processes tokens in order, case
insensitively; the country is always AU or IN; the keyword is the kept
tokens joined with single spaces and then stripped, with the default
`"software engineer"` whenever that stripped join is empty, so the keyword
is never empty; the example `["au", "loc=Sydney", "data", "engineer"]`
parses to keyword `"data engineer"`, country AU, location `"Sydney"`. -/
theorem c6_amended (args : List String) :
    ((parse_jobs_args args).country = "AU" ∨ (parse_jobs_args args).country = "IN") ∧
    (parse_jobs_args args).keyword ≠ "" ∧
    (parse_jobs_args args).keyword =
      (if pyStripStr (String.intercalate " " (keptTokens args)) = "" then "software engineer"
       else pyStripStr (String.intercalate " " (keptTokens args))) ∧
    parse_jobs_args ["au", "loc=Sydney", "data", "engineer"] =
      ⟨"data engineer", "AU", some "Sydney"⟩ := by
  have hkw : (parse_jobs_args args).keyword =
      (if pyStripStr (String.intercalate " " (keptTokens args)) = "" then "software engineer"
       else pyStripStr (String.intercalate " " (keptTokens args))) := rfl
  refine ⟨parseJobsArgsAux_country args "AU" none [] (Or.inl rfl), ?_, hkw, by decide⟩
  rw [hkw]
  by_cases hk : pyStripStr (String.intercalate " " (keptTokens args)) = "" <;> simp [hk]

/-- C8: the clear action persists the all-false record whatever the prior
state, and repeating it persists the same result. -/
theorem c8_clear_persists_all_false (db : Db) (uid : Nat) :
    (sub_callback db uid .clear).saved uid = ⟨false, false, false⟩ ∧
    (sub_callback (sub_callback db uid .clear) uid .clear).saved uid
      = (sub_callback db uid .clear).saved uid := by
  simp [sub_callback, upsert_user]

/-- C9, counterexample to the claim as stated: a whitespace-only AI tools
content is a non-empty formatted string, so the claim predicts a
one-section message, but `post_channel_summary` tests the stripped content
and attempts no delivery. -/
theorem c9_counterexample :
    post_channel_summary (some "@chan") "" "" " " = none ∧ (" " : String) ≠ "" := by
  refine ⟨?_, ?_⟩ <;> decide

/-- C9, amended: the channel broadcast attempts no delivery when no channel
destination is configured; it includes exactly the sections whose formatted
content is non-blank (non-empty after stripping): when all three are blank
no delivery is attempted, and when only the AI tools content is non-blank a
one-section message is sent. -/
theorem c9_amended (auC inC toolsC : String) :
    (post_channel_summary none auC inC toolsC = none) ∧
    (∀ ch : Option String, pyStrip auC.toList = [] → pyStrip inC.toList = [] →
      pyStrip toolsC.toList = [] → post_channel_summary ch auC inC toolsC = none) ∧
    (∀ c : String, c ≠ "" → pyStrip auC.toList = [] → pyStrip inC.toList = [] →
      pyStrip toolsC.toList ≠ [] →
      post_channel_summary (some c) auC inC toolsC = some (sectionTools toolsC)) := by
  refine ⟨by simp [post_channel_summary], ?_, ?_⟩
  · intro ch h1 h2 h3
    have hparts : channelParts auC inC toolsC = [] := by
      simp only [channelParts, h1, h2, h3]
      simp
    cases ch with
    | none => simp [post_channel_summary]
    | some c =>
      by_cases hc : c = "" <;> simp [post_channel_summary, hc, hparts]
  · intro c hc h1 h2 h3
    have hparts : channelParts auC inC toolsC = [sectionTools toolsC] := by
      simp only [channelParts, h1, h2, h3]
      simp [h3]
    simp [post_channel_summary, hc, hparts, String_intercalate_singleton]

/-- Witness for C9 (amended) with only a non-blank AI tools content. -/
theorem c9_witness :
    post_channel_summary (some "@c") "" "" "AI list" = some (sectionTools "AI list") :=
  (c9_amended "" "" "AI list").2.2 "@c" (by decide) (by decide) (by decide) (by decide)

/-- C10: when the provider returns no results for the parsed country and
the one-shot retry with the other country is non-empty, the reply uses the
retry's results, reports the retried country in its header, and keeps the
parsed keyword and location unchanged. -/
theorem c10_retry_other_country (jobsApi : String → String → Option String → List String)
    (msg : String)
    (h1 : jobsApi (parse_free_text_to_query msg).keyword (parse_free_text_to_query msg).country
            (parse_free_text_to_query msg).location = [])
    (h2 : jobsApi (parse_free_text_to_query msg).keyword
            (otherCountry (parse_free_text_to_query msg).country)
            (parse_free_text_to_query msg).location ≠ []) :
    text_search jobsApi msg =
      ⟨(parse_free_text_to_query msg).keyword,
       otherCountry (parse_free_text_to_query msg).country,
       (parse_free_text_to_query msg).location,
       jobsApi (parse_free_text_to_query msg).keyword
         (otherCountry (parse_free_text_to_query msg).country)
         (parse_free_text_to_query msg).location,
       searchHeader (parse_free_text_to_query msg).keyword
         (otherCountry (parse_free_text_to_query msg).country)
         (parse_free_text_to_query msg).location⟩ := by
  have h2' : (jobsApi (parse_free_text_to_query msg).keyword
      (otherCountry (parse_free_text_to_query msg).country)
      (parse_free_text_to_query msg).location).isEmpty = false := by
    simpa [List.isEmpty_iff] using h2
  simp [text_search, h1, h2']

/-- Witness for C10 with a provider that only has results for IN. -/
theorem c10_witness :
    text_search (fun _ cc _ => if cc = "IN" then ["job1"] else []) "" =
      ⟨"software engineer", "IN", none, ["job1"], searchHeader "software engineer" "IN" none⟩ :=
  (c10_retry_other_country (fun _ cc _ => if cc = "IN" then ["job1"] else []) ""
    (by decide) (by decide)).trans (by decide)

/-! ## Lemmas about the word-boundary scanners

The goal of this section is `containsIndia_removeAu`: removing the
whole-word `au`/`australia` occurrences neither destroys nor creates a
whole-word `india` occurrence.  Every removed match is flanked by
non-word characters (or the ends of the text), so the removal never makes
two word characters adjacent, and `india` consists of word characters
only. -/

/-- A character that case-insensitively matches a lowercase letter is a word
character. -/
theorem ciMatch_isWordChar {c p : Char} (h : ciMatch c p = true)
    (h1 : 97 ≤ p.toNat) (h2 : p.toNat ≤ 122) : isWordChar c = true := by
  simp only [ciMatch, decide_eq_true_eq] at h
  simp only [isWordChar, decide_eq_true_eq]
  omega

/-- A non-word character matches no lowercase letter. -/
theorem ciMatch_false_of_not_word {c p : Char} (h : isWordChar c = false)
    (h1 : 97 ≤ p.toNat) (h2 : p.toNat ≤ 122) : ciMatch c p = false := by
  cases hcm : ciMatch c p with
  | false => rfl
  | true => rw [ciMatch_isWordChar hcm h1 h2] at h; exact absurd h (by simp)

/-- A character matching `a` does not match `i`. -/
theorem ciMatch_a_not_i {c : Char} (h : ciMatch c 'a' = true) : ciMatch c 'i' = false := by
  have ha : ('a').toNat = 97 := rfl
  have hi : ('i').toNat = 105 := rfl
  simp only [ciMatch, decide_eq_true_eq, ha, hi] at h ⊢
  simp only [decide_eq_false_iff_not]
  omega

/-- `tryIndiaAt` fails whenever the head does not match `i`. -/
theorem tryIndiaAt_none_of_head {c : Char} (rest : List Char)
    (h : ciMatch c 'i' = false) : tryIndiaAt (c :: rest) = none := by
  simp [tryIndiaAt, walkCI, h]

/-- Unfolding a successful `walkCI` step. -/
theorem walkCI_cons {p c : Char} {ps rest X : List Char}
    (h : walkCI (p :: ps) (c :: rest) = some X) :
    ciMatch c p = true ∧ walkCI ps rest = some X := by
  simp only [walkCI] at h
  split at h
  · next hc => exact ⟨hc, h⟩
  · simp at h

/-- A successful pattern walk consumes exactly the pattern's length. -/
theorem walkCI_length {ps : List Char} : ∀ {cs rest : List Char},
    walkCI ps cs = some rest → cs.length = ps.length + rest.length := by
  induction ps with
  | nil =>
    intro cs rest h
    simp only [walkCI, Option.some.injEq] at h
    simp [h]
  | cons p ps ih =>
    intro cs rest h
    cases cs with
    | nil => simp [walkCI] at h
    | cons c cs =>
      obtain ⟨-, hw⟩ := walkCI_cons h
      have := ih hw
      simp only [List.length_cons, this]
      omega

/-- Case analysis on a successful `tryAuAt`. -/
theorem tryAuAt_cases {cs rest : List Char} (h : tryAuAt cs = some rest) :
    boundaryR rest = true ∧
    (walkCI ['a', 'u'] cs = some rest ∨
      ∃ mid, walkCI ['a', 'u'] cs = some mid ∧
        walkCI ['s', 't', 'r', 'a', 'l', 'i', 'a'] mid = some rest) := by
  unfold tryAuAt at h
  cases h2 : walkCI ['a', 'u'] cs with
  | none => simp only [h2] at h; exact absurd h (by simp)
  | some mid =>
    simp only [h2] at h
    by_cases hb : boundaryR mid = true
    · rw [if_pos hb] at h
      obtain rfl : mid = rest := by simpa using h
      exact ⟨hb, Or.inl rfl⟩
    · rw [if_neg hb] at h
      cases h3 : walkCI ['s', 't', 'r', 'a', 'l', 'i', 'a'] mid with
      | none => simp only [h3] at h; exact absurd h (by simp)
      | some r9 =>
        simp only [h3] at h
        by_cases hb9 : boundaryR r9 = true
        · rw [if_pos hb9] at h
          obtain rfl : r9 = rest := by simpa using h
          exact ⟨hb9, Or.inr ⟨mid, rfl, h3⟩⟩
        · rw [if_neg hb9] at h; simp at h

/-- Walking over lowercase pattern letters does not change whether the
India search succeeds from a word-context position. -/
theorem reSearch_true_walkCI {ps : List Char}
    (hps : ∀ p ∈ ps, 97 ≤ p.toNat ∧ p.toNat ≤ 122) :
    ∀ {cs X : List Char}, walkCI ps cs = some X →
      reSearchWordAux tryIndiaAt true cs = reSearchWordAux tryIndiaAt true X := by
  induction ps with
  | nil =>
    intro cs X h
    simp only [walkCI, Option.some.injEq] at h
    rw [h]
  | cons p ps ih =>
    intro cs X h
    cases cs with
    | nil => simp [walkCI] at h
    | cons c cs =>
      obtain ⟨hc, hw⟩ := walkCI_cons h
      have hword : isWordChar c = true :=
        ciMatch_isWordChar hc (hps p (by simp)).1 (hps p (by simp)).2
      have hstep : reSearchWordAux tryIndiaAt true (c :: cs)
          = reSearchWordAux tryIndiaAt (isWordChar c) cs := by
        simp [reSearchWordAux]
      rw [hstep, hword, ih (fun q hq => hps q (by simp [hq])) hw]

/-- `reSubWordFuel` on the empty text. -/
theorem reSub_nil (t : List Char → Option (List Char)) (f : Nat) (pw : Bool) :
    reSubWordFuel t f pw [] = [] := by cases f <;> cases pw <;> rfl

/-- `reSubWordFuel` in word context keeps the head. -/
theorem reSub_succ_true (t : List Char → Option (List Char)) (f : Nat) (c : Char)
    (rest : List Char) :
    reSubWordFuel t (f + 1) true (c :: rest) = c :: reSubWordFuel t f (isWordChar c) rest := rfl

/-- `reSubWordFuel` at a boundary position without a match keeps the head. -/
theorem reSub_succ_false_none (t : List Char → Option (List Char)) (f : Nat) (c : Char)
    (rest : List Char) (h : t (c :: rest) = none) :
    reSubWordFuel t (f + 1) false (c :: rest) = c :: reSubWordFuel t f (isWordChar c) rest := by
  simp only [reSubWordFuel, h]

/-- `reSubWordFuel` at a boundary position with a match removes it. -/
theorem reSub_succ_false_some (t : List Char → Option (List Char)) (f : Nat) (c : Char)
    (rest rest2 : List Char) (h : t (c :: rest) = some rest2) :
    reSubWordFuel t (f + 1) false (c :: rest) = reSubWordFuel t f true rest2 := by
  simp only [reSubWordFuel, h]

/-- Removing AU words behind a word-context position commutes with walking a
lowercase pattern: the walk fails on both texts, or succeeds on both with
the removal continuing on the rests. -/
theorem walkCI_reSub {ps : List Char} (hps : ∀ p ∈ ps, 97 ≤ p.toNat ∧ p.toNat ≤ 122) :
    ∀ (fuel : Nat) (cs : List Char), cs.length ≤ fuel →
      (walkCI ps cs = none → walkCI ps (reSubWordFuel tryAuAt fuel true cs) = none) ∧
      (∀ X, walkCI ps cs = some X →
        ∃ f2, X.length ≤ f2 ∧
          walkCI ps (reSubWordFuel tryAuAt fuel true cs)
            = some (reSubWordFuel tryAuAt f2 true X)) := by
  induction ps with
  | nil =>
    intro fuel cs hlen
    refine ⟨fun h => by simp [walkCI] at h, fun X hX => ?_⟩
    simp only [walkCI, Option.some.injEq] at hX
    subst hX
    exact ⟨fuel, hlen, by simp [walkCI]⟩
  | cons p ps ih =>
    intro fuel cs hlen
    have hp : 97 ≤ p.toNat ∧ p.toNat ≤ 122 := hps p (by simp)
    have hps' : ∀ q ∈ ps, 97 ≤ q.toNat ∧ q.toNat ≤ 122 := fun q hq => hps q (by simp [hq])
    cases cs with
    | nil =>
      rw [reSub_nil]
      exact ⟨fun h => h, fun X hX => by simp [walkCI] at hX⟩
    | cons c rest =>
      cases fuel with
      | zero => simp at hlen
      | succ f =>
        have hlen' : rest.length ≤ f := by simpa using hlen
        rw [reSub_succ_true]
        cases hc : ciMatch c p with
        | true =>
          have hword := ciMatch_isWordChar hc hp.1 hp.2
          rw [hword]
          constructor
          · intro h
            have h' : walkCI ps rest = none := by
              simpa only [walkCI, hc, if_true] using h
            simp only [walkCI, hc, if_true]
            exact (ih hps' f rest hlen').1 h'
          · intro X hX
            have hX' : walkCI ps rest = some X := by
              simpa only [walkCI, hc, if_true] using hX
            obtain ⟨f2, hf2, heq⟩ := (ih hps' f rest hlen').2 X hX'
            exact ⟨f2, hf2, by simp only [walkCI, hc, if_true]; exact heq⟩
        | false =>
          constructor
          · intro _
            simp [walkCI, hc]
          · intro X hX
            simp [walkCI, hc] at hX

/-- Removing AU words behind a word-context position preserves the boundary
status of the head. -/
theorem boundaryR_reSub (f : Nat) (X : List Char) (h : X.length ≤ f) :
    boundaryR (reSubWordFuel tryAuAt f true X) = boundaryR X := by
  cases X with
  | nil => rw [reSub_nil]
  | cons x xs =>
    cases f with
    | zero => simp at h
    | succ f => rw [reSub_succ_true]; rfl

/-- Removing AU words behind a word-context position preserves whether
`india` matches at this position. -/
theorem tryIndiaAt_reSub (fuel : Nat) (cs : List Char) (h : cs.length ≤ fuel) :
    (tryIndiaAt (reSubWordFuel tryAuAt fuel true cs)).isSome = (tryIndiaAt cs).isSome := by
  have hps : ∀ p ∈ ['i', 'n', 'd', 'i', 'a'], 97 ≤ p.toNat ∧ p.toNat ≤ 122 := by decide
  obtain ⟨hnone, hsome⟩ := walkCI_reSub hps fuel cs h
  cases hw : walkCI ['i', 'n', 'd', 'i', 'a'] cs with
  | none =>
    have h2 := hnone hw
    simp [tryIndiaAt, hw, h2]
  | some X =>
    obtain ⟨f2, hf2, heq⟩ := hsome X hw
    have hb := boundaryR_reSub f2 X hf2
    simp only [tryIndiaAt, hw, heq, hb]
    cases boundaryR X <;> simp

/-- Main preservation result, by strong induction on the fuel: removing the
whole-word `au`/`australia` occurrences does not change whether the text
contains a whole-word `india` occurrence.  The first part scans from the
same context on both texts; the second part crosses a removed match, whose
trailing boundary guarantees the next character is not a word character. -/
theorem india_search_au_sub (fuel : Nat) :
    (∀ (prevW : Bool) (cs : List Char), cs.length ≤ fuel →
      reSearchWordAux tryIndiaAt prevW (reSubWordFuel tryAuAt fuel prevW cs)
        = reSearchWordAux tryIndiaAt prevW cs) ∧
    (∀ cs : List Char, cs.length ≤ fuel → boundaryR cs = true →
      reSearchWordAux tryIndiaAt false (reSubWordFuel tryAuAt fuel true cs)
        = reSearchWordAux tryIndiaAt true cs) := by
  induction fuel using Nat.strong_induction_on with
  | _ fuel ih =>
    constructor
    · intro prevW cs hlen
      cases cs with
      | nil => rw [reSub_nil]
      | cons c rest =>
        cases fuel with
        | zero => simp at hlen
        | succ f =>
          have hlen' : rest.length ≤ f := by simpa using hlen
          have ihf := ih f (by omega)
          cases prevW with
          | true =>
            rw [reSub_succ_true]
            simp only [reSearchWordAux, Bool.not_true, Bool.false_and, Bool.false_or]
            exact ihf.1 (isWordChar c) rest hlen'
          | false =>
            cases htry : tryAuAt (c :: rest) with
            | none =>
              rw [reSub_succ_false_none _ _ _ _ htry]
              have hti : (tryIndiaAt (c :: reSubWordFuel tryAuAt f (isWordChar c) rest)).isSome
                  = (tryIndiaAt (c :: rest)).isSome := by
                cases hw : isWordChar c with
                | true =>
                  have h2 := tryIndiaAt_reSub (f + 1) (c :: rest) hlen
                  rw [reSub_succ_true, hw] at h2
                  exact h2
                | false =>
                  have hni : ciMatch c 'i' = false :=
                    ciMatch_false_of_not_word hw (by decide) (by decide)
                  rw [tryIndiaAt_none_of_head _ hni, tryIndiaAt_none_of_head _ hni]
              simp only [reSearchWordAux, Bool.not_false, Bool.true_and]
              rw [hti, ihf.1 (isWordChar c) rest hlen']
            | some rest2 =>
              rw [reSub_succ_false_some _ _ _ _ _ htry]
              obtain ⟨hbr, hcases⟩ := tryAuAt_cases htry
              have hlen2 : rest2.length ≤ f := by
                rcases hcases with hw | ⟨mid, hw1, hw2⟩
                · have hl := walkCI_length hw
                  simp only [List.length_cons] at hl hlen
                  simp only [List.length] at hl
                  omega
                · have l1 := walkCI_length hw1
                  have l2 := walkCI_length hw2
                  simp only [List.length_cons] at l1 l2 hlen
                  simp only [List.length] at l1 l2
                  omega
              have hpart2 := (ih f (by omega)).2 rest2 hlen2 hbr
              rw [hpart2]
              have hca : ciMatch c 'a' = true := by
                rcases hcases with hw | ⟨mid, hw1, -⟩
                · exact (walkCI_cons hw).1
                · exact (walkCI_cons hw1).1
              have hcword : isWordChar c = true :=
                ciMatch_isWordChar hca (by decide) (by decide)
              have hni : ciMatch c 'i' = false := ciMatch_a_not_i hca
              have hrhs : reSearchWordAux tryIndiaAt false (c :: rest)
                  = reSearchWordAux tryIndiaAt true (c :: rest) := by
                simp only [reSearchWordAux, tryIndiaAt_none_of_head _ hni]
                simp
              rw [hrhs]
              rcases hcases with hw | ⟨mid, hw1, hw2⟩
              · exact (reSearch_true_walkCI (by decide) hw).symm
              · exact ((reSearch_true_walkCI (by decide) hw1).trans
                  (reSearch_true_walkCI (by decide) hw2)).symm
    · intro cs hlen hb
      cases cs with
      | nil => rw [reSub_nil]; rfl
      | cons d ds =>
        cases fuel with
        | zero => simp at hlen
        | succ f =>
          have hlen' : ds.length ≤ f := by simpa using hlen
          have hdw : isWordChar d = false := by simpa [boundaryR] using hb
          rw [reSub_succ_true]
          have hni : ciMatch d 'i' = false :=
            ciMatch_false_of_not_word hdw (by decide) (by decide)
          simp only [reSearchWordAux, tryIndiaAt_none_of_head _ hni, hdw]
          simp only [Option.isSome_none, Bool.and_false, Bool.false_or, Bool.not_true,
            Bool.false_and]
          exact (ih f (by omega)).1 false ds hlen'

/-- Removing the AU words does not change whether the text contains a
whole-word `india` occurrence. -/
theorem containsIndia_removeAu (cs : List Char) :
    containsIndia (removeAu cs) = containsIndia cs :=
  (india_search_au_sub cs.length).1 false cs le_rfl

/-- The detected country as a function of the two containment checks. -/
theorem freeTextTrace_country (s : String) :
    (freeTextTrace s).country =
      if containsIndia (if containsAu (normalizeText s) then removeAu (normalizeText s)
        else normalizeText s) then "IN" else "AU" := rfl

/-- C4: free-text country detection evaluates the AU check first and the
India check second, both always running, so the last matching branch wins:
a normalized input containing both an AU word and the word india yields IN;
one containing an AU word but not india yields AU; one containing india but
no AU word yields IN. -/
theorem c4_country_detection (s : String) :
    (containsAu (normalizeText s) = true → containsIndia (normalizeText s) = true →
      (parse_free_text_to_query s).country = "IN") ∧
    (containsAu (normalizeText s) = true → containsIndia (normalizeText s) = false →
      (parse_free_text_to_query s).country = "AU") ∧
    (containsAu (normalizeText s) = false → containsIndia (normalizeText s) = true →
      (parse_free_text_to_query s).country = "IN") := by
  have hc : (parse_free_text_to_query s).country =
      if containsIndia (if containsAu (normalizeText s) then removeAu (normalizeText s)
        else normalizeText s) then "IN" else "AU" := freeTextTrace_country s
  refine ⟨?_, ?_, ?_⟩ <;> intro h1 h2 <;> rw [hc] <;>
    simp [h1, containsIndia_removeAu, h2]

/-- Witness for C4 on a text containing both an AU word and india. -/
theorem c4_witness :
    containsAu (normalizeText "au india") = true ∧
    containsIndia (normalizeText "au india") = true ∧
    (parse_free_text_to_query "au india").country = "IN" :=
  ⟨by decide, by decide, (c4_country_detection "au india").1 (by decide) (by decide)⟩

/-- `pyStrip` is the left strip followed by the right strip. -/
theorem pyStrip_eq (l : List Char) :
    pyStrip l = List.rdropWhile isSpaceChar (l.dropWhile isSpaceChar) := rfl

/-- Python `str.strip()` is idempotent. -/
theorem pyStrip_idem (l : List Char) : pyStrip (pyStrip l) = pyStrip l := by
  rw [pyStrip_eq, pyStrip_eq]
  have hdw : List.dropWhile isSpaceChar
      (List.rdropWhile isSpaceChar (l.dropWhile isSpaceChar))
      = List.rdropWhile isSpaceChar (l.dropWhile isSpaceChar) := by
    rw [List.dropWhile_eq_self_iff]
    intro hl
    have hpre : List.rdropWhile isSpaceChar (l.dropWhile isSpaceChar)
        <+: l.dropWhile isSpaceChar := List.rdropWhile_prefix _ _
    have hlen : 0 < (l.dropWhile isSpaceChar).length := lt_of_lt_of_le hl hpre.length_le
    have hget : (List.rdropWhile isSpaceChar (l.dropWhile isSpaceChar)).get ⟨0, hl⟩
        = (l.dropWhile isSpaceChar).get ⟨0, hlen⟩ := by
      simp only [List.get_eq_getElem]
      exact hpre.getElem (by simpa using hl)
    rw [hget]
    exact List.dropWhile_get_zero_not _ _ hlen
  rw [hdw, List.rdropWhile_idempotent]

/-- The extracted location, as the first capture of the location pattern in
the text after country removal. -/
theorem freeTextTrace_location_eq (s : String) :
    (freeTextTrace s).location
      = (locFind ((freeTextTrace s).afterIndia)).map (fun cap => String.mk (pyStrip cap)) := by
  unfold freeTextTrace
  dsimp only

/-- The remaining text: stripped of the location matches exactly when the
location pattern matched. -/
theorem freeTextTrace_remainder_eq (s : String) :
    (freeTextTrace s).remainder
      = if (locFind ((freeTextTrace s).afterIndia)).isSome
        then pyStrip (locSub ((freeTextTrace s).afterIndia))
        else (freeTextTrace s).afterIndia := by
  unfold freeTextTrace
  dsimp only

/-- C5, counterexample to the claim as stated: on `"au australia"` the
remaining text after country-word removal is the single space `" "`, which
the source neither trims nor replaces by the default keyword (the location
branch did not fire), while the claim's trimmed remainder is empty and
would yield `"software engineer"`. -/
theorem c5_counterexample :
    (parse_free_text_to_query "au australia").keyword ≠ c5ClaimKeyword "au australia" ∧
    (parse_free_text_to_query "au australia").keyword = " " := by
  refine ⟨?_, ?_⟩ <;> decide

/-- C5, amended: the returned keyword equals the remaining text after
normalization, country-word removal and location removal — which is trimmed
at both ends only when a location match was removed — and is the default
`"software engineer"` exactly when that remainder is the empty string;
parsing the empty string returns the default keyword, country AU and no
location. -/
theorem c5_amended (s : String) :
    ((freeTextTrace s).remainder = [] →
      (parse_free_text_to_query s).keyword = "software engineer") ∧
    ((freeTextTrace s).remainder ≠ [] →
      (parse_free_text_to_query s).keyword = String.mk (freeTextTrace s).remainder) ∧
    ((freeTextTrace s).location.isSome = true →
      pyStrip (freeTextTrace s).remainder = (freeTextTrace s).remainder) ∧
    parse_free_text_to_query "" = ⟨"software engineer", "AU", none⟩ := by
  refine ⟨?_, ?_, ?_, by decide⟩
  · intro h
    simp [parse_free_text_to_query, h]
  · intro h
    have h' : (freeTextTrace s).remainder.isEmpty = false := by
      simpa [List.isEmpty_iff] using h
    simp [parse_free_text_to_query, h']
  · intro h
    have hs : (locFind ((freeTextTrace s).afterIndia)).isSome = true := by
      rw [freeTextTrace_location_eq] at h
      simpa using h
    rw [freeTextTrace_remainder_eq]
    simp [hs, pyStrip_idem]

/-- Witness for C5 (amended) on an input whose location branch fires. -/
theorem c5_witness :
    (freeTextTrace "a loc=B").location.isSome = true ∧
    pyStrip (freeTextTrace "a loc=B").remainder = (freeTextTrace "a loc=B").remainder :=
  ⟨by decide, (c5_amended "a loc=B").2.2.1 (by decide)⟩

/-- C7: on the working text after normalization and country-word removal,
the first match of the case-sensitive `loc=` letters-and-spaces pattern has
its capture trimmed into the location and the matched text removed (and the
result stripped) before the keyword is formed; without a match there is no
location; the example sentence parses to country IN, location
`"Bangalore"`, and the keyword `"Looking for data engineer jobs in"`
(which contains `"data engineer"`). -/
theorem c7_location_extraction (s : String) :
    (locFind ((freeTextTrace s).afterIndia) = none →
      (parse_free_text_to_query s).location = none) ∧
    (∀ cap, locFind ((freeTextTrace s).afterIndia) = some cap →
      (parse_free_text_to_query s).location = some (String.mk (pyStrip cap)) ∧
      (freeTextTrace s).remainder = pyStrip (locSub ((freeTextTrace s).afterIndia))) ∧
    parse_free_text_to_query "Looking for data engineer jobs in India, loc=Bangalore" =
      ⟨"Looking for data engineer jobs in", "IN", some "Bangalore"⟩ := by
  have hloc : (parse_free_text_to_query s).location = (freeTextTrace s).location := rfl
  refine ⟨?_, ?_, by decide⟩
  · intro h
    rw [hloc, freeTextTrace_location_eq, h]
    rfl
  · intro cap h
    refine ⟨?_, ?_⟩
    · rw [hloc, freeTextTrace_location_eq, h]
      rfl
    · rw [freeTextTrace_remainder_eq, h]
      rfl

/-- Witness for C7 on an input containing a location pattern. -/
theorem c7_witness :
    locFind ((freeTextTrace "loc=Sydney").afterIndia) = some "Sydney".toList ∧
    (parse_free_text_to_query "loc=Sydney").location
      = some (String.mk (pyStrip "Sydney".toList)) :=
  ⟨by decide, ((c7_location_extraction "loc=Sydney").2.1 "Sydney".toList (by decide)).1⟩
